import Mathlib

/-!
# Verification of the api-gateway core (main.go)

Shallow embedding of the request-processing core of the `api-gateway`
repository: the token-bucket rate limiter, the health-aware round-robin
load balancer, the backend health checker, and the dispatcher pipeline
of `Gateway.handleRequest`.

Time is modelled in seconds as a rational number (`ℚ`); Go's float64
token arithmetic is embedded as exact rational arithmetic.  Go maps are
embedded as functions into `Option`.  Strings are Lean strings, viewed
as their character lists where character-level reasoning is needed.
-/

namespace ApiGateway

/-! ## Token bucket (`TokenBucket`, main.go lines 50-55, 344-357) -/

/-- `TokenBucket` from main.go: a float64 token count, a capacity, a
refill rate in tokens per second, and the time of the last refill. -/
structure TokenBucket where
  tokens : ℚ
  capacity : ℚ
  refillRate : ℚ
  lastRefill : ℚ
  deriving DecidableEq, Repr

/-- `TokenBucket.refill` (main.go 345-350): `elapsed := now - lastRefill`;
`tokens := min(capacity, tokens + elapsed*refillRate)`; `lastRefill := now`. -/
def refill (tb : TokenBucket) (now : ℚ) : TokenBucket :=
  { tb with
    tokens := min tb.capacity (tb.tokens + (now - tb.lastRefill) * tb.refillRate)
    lastRefill := now }

/-- The shared consume step of `allowIP`/`allowKey` (main.go 316-321 and
336-341): call `refill`, then if `tokens >= 1` subtract one token and
allow, else deny. -/
def tryConsume (tb : TokenBucket) (now : ℚ) : Bool × TokenBucket :=
  let tb' := refill tb now
  if 1 ≤ tb'.tokens then (true, { tb' with tokens := tb'.tokens - 1 })
  else (false, tb')

/-- Bucket creation in `allowIP`/`allowKey` (main.go 307-312 and 327-332):
a fresh bucket for a configured integer limit of requests per minute has
`tokens = capacity = limit` and `refillRate = limit / 60.0`. -/
def newBucket (limit : ℕ) (now : ℚ) : TokenBucket :=
  { tokens := (limit : ℚ)
    capacity := (limit : ℚ)
    refillRate := (limit : ℚ) / 60
    lastRefill := now }

/-- `tryConsume` as the spec's §4.1 words describe it: first refill to
`min(capacity, tokens + (now - lastRefill) * refillRate)` with
`lastRefill := now`; then, if the refilled count is at least 1, subtract
exactly 1 and allow, otherwise deny leaving the refilled count unchanged.
Stated independently of `tryConsume` so the two can be compared. -/
def tryConsumeSpec (tb : TokenBucket) (now : ℚ) : Bool × TokenBucket :=
  let refilled : ℚ := min tb.capacity (tb.tokens + (now - tb.lastRefill) * tb.refillRate)
  if 1 ≤ refilled then
    (true, { tokens := refilled - 1, capacity := tb.capacity,
             refillRate := tb.refillRate, lastRefill := now })
  else
    (false, { tokens := refilled, capacity := tb.capacity,
              refillRate := tb.refillRate, lastRefill := now })

/-- Run a sequence of `tryConsume` calls at the given times, returning the
final bucket state. -/
def runCalls (tb : TokenBucket) : List ℚ → TokenBucket
  | [] => tb
  | t :: ts => runCalls (tryConsume tb t).2 ts

/-- The C3 bucket invariant: the token count stays within `[0, capacity]`. -/
def bucketInv (tb : TokenBucket) : Prop :=
  0 ≤ tb.tokens ∧ tb.tokens ≤ tb.capacity

instance (tb : TokenBucket) : Decidable (bucketInv tb) := by
  unfold bucketInv; infer_instance

/-! ## Rate limiter (`RateLimiter`, main.go 43-47, 287-342) -/

/-- A Go `map[string]*TokenBucket`, embedded as a function into `Option`. -/
def BucketMap : Type := String → Option TokenBucket

/-- Map update (Go `m[k] = bucket`; also models in-place mutation of the
bucket a map entry points to). -/
def BucketMap.insert (m : BucketMap) (k : String) (b : TokenBucket) : BucketMap :=
  fun s => if s = k then some b else m s

/-- `RateLimiter` state from main.go: the per-IP and per-API-key bucket maps. -/
structure RateLimiter where
  ipLimits : BucketMap
  keyLimits : BucketMap

/-- The lookup-or-lazily-create step shared by `allowIP` and `allowKey`
(main.go 305-314 and 325-334): a hit returns the stored bucket, a miss
creates a fresh bucket for the limit. -/
def lookupOrNew (m : BucketMap) (k : String) (limit : ℕ) (now : ℚ) : TokenBucket :=
  match m k with
  | some b => b
  | none => newBucket limit now

/-- `RateLimiter.allowIP` (main.go 304-322): look up the IP's bucket,
lazily creating it with limit `limit` (stored back into the map); then
refill and consume.  Returns the decision and the updated map. -/
def allowIP (m : BucketMap) (ip : String) (limit : ℕ) (now : ℚ) : Bool × BucketMap :=
  let bucket := lookupOrNew m ip limit now
  let r := tryConsume bucket now
  (r.1, m.insert ip r.2)

/-- `RateLimiter.allowKey` (main.go 324-342): identical to `allowIP` but on
the key map. -/
def allowKey (m : BucketMap) (key : String) (limit : ℕ) (now : ℚ) : Bool × BucketMap :=
  let bucket := lookupOrNew m key limit now
  let r := tryConsume bucket now
  (r.1, m.insert key r.2)

/-- `RateLimiter.Allow` (main.go 287-302): charge the IP bucket; on denial
return false at once (the key map untouched).  Then, if `key` is
non-empty, charge the key bucket; return its decision.  Otherwise allow. -/
def Allow (rl : RateLimiter) (ip key : String) (ipLimit keyLimit : ℕ) (now : ℚ) :
    Bool × RateLimiter :=
  let rIP := allowIP rl.ipLimits ip ipLimit now
  if !rIP.1 then (false, { rl with ipLimits := rIP.2 })
  else if key ≠ "" then
    let rKey := allowKey rl.keyLimits key keyLimit now
    (rKey.1, { ipLimits := rIP.2, keyLimits := rKey.2 })
  else (true, { rl with ipLimits := rIP.2 })

/-! ## Load balancer (`LoadBalancer`, main.go 28-32, 264-284)

A backend is represented by its index in the registration order; the
`Alive` flags of `lb.backends` are the Bool list `alive`. -/

/-- `LoadBalancer` state from main.go: the backends' liveness flags in
registration order, and the rotation cursor `current`. -/
structure LoadBalancer where
  alive : List Bool
  current : ℕ
  deriving DecidableEq, Repr

/-- The scan loop of `LoadBalancer.Next` (main.go 275-281):
`for i := 0; i < n; i++ { idx := (start+i) % n; if backends[idx].Alive
{ return idx } }`.  `fuel` is the number of iterations left (`n - i`). -/
def scanLoop (alive : List Bool) (start n : ℕ) : ℕ → ℕ → Option ℕ
  | _, 0 => none
  | i, fuel + 1 =>
    if alive.getD ((start + i) % n) false then some ((start + i) % n)
    else scanLoop alive start n (i + 1) fuel

/-- `LoadBalancer.Next` (main.go 265-284): if there are no backends return
none; otherwise scan at most `n` positions from the cursor, and on a hit
set `current := (idx+1) % n` and return the hit's index. -/
def Next (lb : LoadBalancer) : Option ℕ × LoadBalancer :=
  let n := lb.alive.length
  if n = 0 then (none, lb)
  else
    match scanLoop lb.alive lb.current n 0 n with
    | some idx => (some idx, { lb with current := (idx + 1) % n })
    | none => (none, lb)

/-- Iterate `Next`, collecting the selections of `m` consecutive calls. -/
def selList (lb : LoadBalancer) : ℕ → List (Option ℕ)
  | 0 => []
  | m + 1 => (Next lb).1 :: selList (Next lb).2 m

/-- The state after `m` calls to `Next`. -/
def afterCalls (lb : LoadBalancer) : ℕ → LoadBalancer
  | 0 => lb
  | m + 1 => afterCalls (Next lb).2 m

/-! ## Health checker (`Gateway.checkBackendHealth`, main.go 377-405) -/

/-- The outcome of one health probe: `failure` is `err != nil` (timeout or
connection error); `status c` is a response with HTTP status code `c`
(when `err == nil` the Go client guarantees a non-nil response). -/
inductive ProbeResult where
  | failure : ProbeResult
  | status : ℕ → ProbeResult
  deriving DecidableEq, Repr

/-- The failure test of main.go 389:
`err != nil || (resp != nil && resp.StatusCode != http.StatusOK)`
(`http.StatusOK` is 200). -/
def probeFailed : ProbeResult → Bool
  | .failure => true
  | .status c => c ≠ 200

/-- `Gateway.checkBackendHealth` (main.go 386-400), given the backend's
current liveness and the probe outcome: returns the new liveness flag and
whether a status-change notification (`log.Printf`) was emitted. -/
def checkBackendHealth (wasAlive : Bool) (res : ProbeResult) : Bool × Bool :=
  if probeFailed res then (false, wasAlive)
  else (true, !wasAlive)

/-- A 2xx HTTP status, as the spec's "probe succeeds (2xx)" reads. -/
def is2xx (c : ℕ) : Bool := 200 ≤ c ∧ c < 300

/-- Probe success as the spec §4.4 words it: not a timeout or connection
error, and a 2xx status. -/
def probeSucceedsSpec : ProbeResult → Bool
  | .failure => false
  | .status c => is2xx c

/-! ## Dispatcher (`Gateway.handleRequest`, main.go 178-240) -/

/-- `clientIP := strings.Split(r.RemoteAddr, ":")[0]` (main.go 185):
Go's `strings.Split` with separator `":"` yields as element 0 the prefix
of the address before its first `':'` (the whole address when there is
no `':'`).  Embedded at the character-list level. -/
def clientIPOf (addr : String) : String :=
  ⟨addr.data.takeWhile (fun c => c ≠ ':')⟩

/-- The inbound request data `handleRequest` consumes: method, URL path,
transport-layer peer address, and the `X-API-Key` header (`""` when the
header is absent, as `http.Header.Get` returns). -/
structure GoRequest where
  method : String
  path : String
  remoteAddr : String
  apiKey : String

/-- The gateway configuration fields `handleRequest` reads (`Config`,
main.go 18-25): the API-key whitelist (`map[string]bool`, `false` when
absent) and the two rate limits. -/
structure GatewayConfig where
  apiKeys : String → Bool
  rateLimitPerIP : ℕ
  rateLimitPerKey : ℕ

/-- The mutable gateway state `handleRequest` touches. -/
structure GatewayState where
  rl : RateLimiter
  lb : LoadBalancer

/-- The observable events of one `handleRequest` run, in program order:
a write to the request logger (`g.logger.Log`, with the entry's status
code and error string), a call into the rate limiter (`g.rateLimiter.Allow`),
a call into the load balancer (`g.lb.Next`), and a proxy forward to a
backend (`backend.Proxy.ServeHTTP`). -/
inductive Event where
  | logged : ℕ → String → Event
  | rateLimiterCalled : Event
  | lbCalled : Event
  | proxyCalled : ℕ → Event
  deriving DecidableEq, Repr

/-- `Gateway.handleRequest` (main.go 178-240) at the granularity the
claims need.  `proxyStatus` abstracts the selected backend's response
status; `now` is the request arrival time in seconds.  Returns the
response status, the new gateway state, and the event trace in program
order.  The `/health` path is forwarded to `handleHealth` (main.go
179-182), which emits no log entry. -/
def handleRequest (cfg : GatewayConfig) (st : GatewayState) (r : GoRequest)
    (proxyStatus : ℕ → ℕ) (now : ℚ) : ℕ × GatewayState × List Event :=
  if r.path = "/health" then (200, st, [])
  else
    let clientIP := clientIPOf r.remoteAddr
    if r.apiKey ≠ "" ∧ ¬ cfg.apiKeys r.apiKey then
      (401, st, [.logged 401 "invalid API key"])
    else
      let rAllow := Allow st.rl clientIP r.apiKey cfg.rateLimitPerIP cfg.rateLimitPerKey now
      let st1 : GatewayState := { st with rl := rAllow.2 }
      if !rAllow.1 then
        (429, st1, [.rateLimiterCalled, .logged 429 "rate limit exceeded"])
      else
        match Next st1.lb with
        | (some idx, lb') =>
          let status := proxyStatus idx
          (status, { st1 with lb := lb' },
            [.rateLimiterCalled, .lbCalled, .proxyCalled idx, .logged status ""])
        | (none, lb') =>
          (503, { st1 with lb := lb' },
            [.rateLimiterCalled, .lbCalled, .logged 503 "no healthy backends available"])

/-- Is an event a logger write? -/
def Event.isLog : Event → Bool
  | .logged _ _ => true
  | _ => false

/-! ## Response-time field (`handleRequest`, main.go 237) -/

/-- Go's `time.Duration.Milliseconds()`: the duration (int64 nanoseconds)
divided by 10^6 with truncation toward zero, an `int64`. -/
def goMilliseconds (ns : ℤ) : ℤ := ns.tdiv 1000000

/-- main.go 237: `fmt.Sprintf("%.2f", time.Since(startTime).Milliseconds())`.
The argument is the `int64` from `Milliseconds()`, not a float, so Go's
`fmt` renders the bad-verb string `%!f(int64=N)` (precision flags are
dropped in bad-verb output). -/
def responseTimeString (elapsedNs : ℤ) : String :=
  "%!f(int64=" ++ toString (goMilliseconds elapsedNs) ++ ")"

/-- A well-formed decimal-number string: non-empty, an optional leading
minus sign, and otherwise only digits with at most one decimal point and
at least one digit. -/
def isDecimalNumeric (s : String) : Bool :=
  let body := if s.data.head? = some '-' then s.data.tail else s.data
  body.any Char.isDigit ∧
  body.all (fun c => c.isDigit ∨ c = '.') ∧
  body.count '.' ≤ 1

/-! ## Theorems -/

/-- C2: every `tryConsume` call first refills the bucket to
`min(capacity, tokens + (now - lastRefill) * refillRate)` with
`lastRefill := now`, then allows (subtracting exactly 1) iff the refilled
count is at least 1; and a bucket created for a configured requests-per-
minute limit has `capacity = limit` and `refillRate = limit / 60.0`. -/
theorem C2_tryConsume_refill_then_check (tb : TokenBucket) (now : ℚ)
    (limit : ℕ) (created : ℚ) :
    tryConsume tb now = tryConsumeSpec tb now ∧
    (newBucket limit created).capacity = (limit : ℚ) ∧
    (newBucket limit created).refillRate = (limit : ℚ) / 60 := by
  refine ⟨?_, rfl, rfl⟩
  unfold tryConsume tryConsumeSpec refill
  rfl

/-- C5 counterexample: a probe answered with HTTP 204 — a 2xx success in
the claim's words — is treated by `checkBackendHealth` as a failure: a
dead backend stays dead instead of becoming alive. -/
theorem C5_counterexample :
    probeSucceedsSpec (.status 204) = true ∧
    (checkBackendHealth false (.status 204)).1 = false := by
  decide

/-- C5 (amended): liveness after a probe is true iff the probe returned
status exactly 200 (`http.StatusOK`) — timeouts, connection errors and
any other status, 2xx included, mark the backend dead — and a status-
change notification is emitted iff the liveness value actually changed. -/
theorem C5_health_transitions (wasAlive : Bool) (res : ProbeResult) :
    ((checkBackendHealth wasAlive res).1 = true ↔ res = .status 200) ∧
    ((checkBackendHealth wasAlive res).2 = true ↔
      (checkBackendHealth wasAlive res).1 ≠ wasAlive) := by
  cases res with
  | failure => cases wasAlive <;> simp [checkBackendHealth, probeFailed]
  | status c =>
    by_cases hc : c = 200 <;>
      cases wasAlive <;>
        simp [checkBackendHealth, probeFailed, hc]

/-- C8: the logged `response_time_ms` field is
`fmt.Sprintf("%.2f", time.Since(startTime).Milliseconds())`; since
`Milliseconds()` is an `int64`, the `%.2f` verb produces the bad-verb
string `%!f(int64=N)` — at 5ms elapsed the field is `"%!f(int64=5)"`,
not a well-formed decimal number. -/
theorem C8_responseTime_not_numeric :
    responseTimeString 5000000 = "%!f(int64=5)" ∧
    isDecimalNumeric (responseTimeString 5000000) = false := by
  constructor
  · rfl
  · rfl

/-- C10 counterexample: for the IPv6 peer address `[2001:db8::1]:443`
the derived identity is `"[2001"`, not the single character `"["` the
claim states for every `[host]:port` address. -/
theorem C10_counterexample :
    clientIPOf "[2001:db8::1]:443" = "[2001" ∧
    clientIPOf "[2001:db8::1]:443" ≠ "[" := by
  refine ⟨rfl, ?_⟩
  decide

/-- C10 (amended): the identity is the peer address's prefix before its
first `':'`; hence for every IPv6 peer `[host]:port` (the host contains a
colon) the identity begins with `'['` and is never the host's IP, so the
logged client IP is not the peer's address — and for every host that
begins with `':'` (such as `::1`) the identity is exactly `"["`, one
bucket shared by all such clients. -/
theorem C10_ipv6_identity (host port : String) (h : ':' ∈ host.data) :
    (clientIPOf ("[" ++ host ++ "]:" ++ port)).data.head? = some '[' ∧
    clientIPOf ("[" ++ host ++ "]:" ++ port) ≠ host ∧
    (host.data.head? = some ':' → clientIPOf ("[" ++ host ++ "]:" ++ port) = "[") := by
  have hdata : ("[" ++ host ++ "]:" ++ port).data
      = '[' :: (host.data ++ (']' :: ':' :: port.data)) := by
    cases host with
    | mk hd =>
      cases port with
      | mk pd => simp [String.data]
  refine ⟨?_, ?_, ?_⟩
  · show (String.mk ((("[" ++ host ++ "]:" ++ port).data).takeWhile _)).data.head? = _
    rw [hdata]
    rw [List.takeWhile_cons_of_pos (by decide)]
    rfl
  · intro hEq
    have hd : host.data = (clientIPOf ("[" ++ host ++ "]:" ++ port)).data := by
      rw [hEq]
    have hmem : ':' ∈ (("[" ++ host ++ "]:" ++ port).data).takeWhile
        (fun c => c ≠ ':') := by
      rw [← show (clientIPOf ("[" ++ host ++ "]:" ++ port)).data
            = (("[" ++ host ++ "]:" ++ port).data).takeWhile (fun c => c ≠ ':') from rfl,
          ← hd]
      exact h
    have := List.mem_takeWhile_imp hmem
    simp at this
  · intro hh
    obtain ⟨rest, hrest⟩ : ∃ rest, host.data = ':' :: rest := by
      cases hdd : host.data with
      | nil => rw [hdd] at hh; exact absurd hh (by simp)
      | cons c cs =>
        rw [hdd] at hh
        have hc : c = ':' := by injection hh
        exact ⟨cs, by rw [hc]⟩
    show String.mk ((("[" ++ host ++ "]:" ++ port).data).takeWhile (fun c => c ≠ ':')) = "["
    rw [hdata, hrest]
    rw [List.takeWhile_cons_of_pos (by decide)]
    rw [List.cons_append]
    rw [List.takeWhile_cons_of_neg (by simp)]

/-- Witness for C10: at host `2001:db8::1` and port `443` the identity
starts with `'['` and differs from the host; at host `::1` and port
`8080` the identity is exactly `"["`. -/
theorem C10_ipv6_identity_witness :
    (clientIPOf ("[" ++ "2001:db8::1" ++ "]:" ++ "443")).data.head? = some '[' ∧
    clientIPOf ("[" ++ "2001:db8::1" ++ "]:" ++ "443") ≠ "2001:db8::1" ∧
    clientIPOf ("[" ++ "::1" ++ "]:" ++ "8080") = "[" := by
  have h := C10_ipv6_identity "2001:db8::1" "443" (by decide)
  have h2 := C10_ipv6_identity "::1" "8080" (by decide)
  exact ⟨h.1, h.2.1, h2.2.2 (by decide)⟩

/-- `tryConsume` never changes the capacity. -/
theorem tryConsume_capacity (tb : TokenBucket) (now : ℚ) :
    (tryConsume tb now).2.capacity = tb.capacity := by
  unfold tryConsume refill
  dsimp only
  split <;> rfl

/-- `tryConsume` never changes the refill rate. -/
theorem tryConsume_refillRate (tb : TokenBucket) (now : ℚ) :
    (tryConsume tb now).2.refillRate = tb.refillRate := by
  unfold tryConsume refill
  dsimp only
  split <;> rfl

/-- `tryConsume` stamps the call time into `lastRefill`. -/
theorem tryConsume_lastRefill (tb : TokenBucket) (now : ℚ) :
    (tryConsume tb now).2.lastRefill = now := by
  unfold tryConsume refill
  dsimp only
  split <;> rfl

/-- One `tryConsume` call at a time not before the last refill keeps the
token count within `[0, capacity]`. -/
theorem tryConsume_bucketInv (tb : TokenBucket) (now : ℚ)
    (hcap : 0 ≤ tb.capacity) (hrate : 0 ≤ tb.refillRate)
    (hnow : tb.lastRefill ≤ now) (hinv : bucketInv tb) :
    bucketInv (tryConsume tb now).2 := by
  obtain ⟨h0, _⟩ := hinv
  have hx0 : 0 ≤ tb.tokens + (now - tb.lastRefill) * tb.refillRate :=
    add_nonneg h0 (mul_nonneg (by linarith) hrate)
  have hminle : min tb.capacity (tb.tokens + (now - tb.lastRefill) * tb.refillRate)
      ≤ tb.capacity := min_le_left _ _
  have hmin0 : 0 ≤ min tb.capacity (tb.tokens + (now - tb.lastRefill) * tb.refillRate) :=
    le_min hcap hx0
  unfold tryConsume refill bucketInv
  dsimp only
  split
  · rename_i h1
    dsimp only
    constructor
    · linarith
    · linarith
  · exact ⟨hmin0, hminle⟩

/-- The C3 invariant holds after every prefix of a chronologically ordered
call sequence. -/
theorem runCalls_take_bucketInv (ts : List ℚ) : ∀ (tb : TokenBucket) (n : ℕ),
    0 ≤ tb.capacity → 0 ≤ tb.refillRate → bucketInv tb →
    List.Chain (· ≤ ·) tb.lastRefill ts →
    bucketInv (runCalls tb (ts.take n)) := by
  induction ts with
  | nil =>
    intro tb n _ _ hinv _
    simpa [runCalls] using hinv
  | cons t ts ih =>
    intro tb n hcap hrate hinv hch
    rcases List.chain_cons.mp hch with ⟨hle, hch'⟩
    cases n with
    | zero => simpa [runCalls] using hinv
    | succ n =>
      rw [List.take_succ_cons]
      show bucketInv (runCalls (tryConsume tb t).2 (ts.take n))
      apply ih (tryConsume tb t).2 n
      · rw [tryConsume_capacity]; exact hcap
      · rw [tryConsume_refillRate]; exact hrate
      · exact tryConsume_bucketInv tb t hcap hrate hle hinv
      · rw [tryConsume_lastRefill]; exact hch'

/-- C3: along any chronologically ordered sequence of `tryConsume` calls
on a bucket with non-negative capacity and refill rate, the token count
stays within `[0, capacity]` at all times; an allowed call leaves exactly
one token less than the refilled count, and a denied call performs the
refill but leaves the refilled count unchanged. -/
theorem C3_bucket_invariant (tb : TokenBucket) (ts : List ℚ)
    (hcap : 0 ≤ tb.capacity) (hrate : 0 ≤ tb.refillRate)
    (hinv : bucketInv tb) (hts : List.Chain (· ≤ ·) tb.lastRefill ts) :
    (∀ n, bucketInv (runCalls tb (ts.take n))) ∧
    (∀ now,
      ((tryConsume tb now).1 = true →
        (tryConsume tb now).2 = { refill tb now with
          tokens := (refill tb now).tokens - 1 }) ∧
      ((tryConsume tb now).1 = false →
        (tryConsume tb now).2 = refill tb now)) := by
  constructor
  · intro n
    exact runCalls_take_bucketInv ts tb n hcap hrate hinv hts
  · intro now
    constructor
    · intro hAllowed
      unfold tryConsume at hAllowed ⊢
      dsimp only at hAllowed ⊢
      split at hAllowed
      · split
        · rfl
        · rename_i h1 h2; exact absurd h1 h2
      · exact absurd hAllowed (by simp)
    · intro hDenied
      unfold tryConsume at hDenied ⊢
      dsimp only at hDenied ⊢
      split at hDenied
      · exact absurd hDenied (by simp)
      · split
        · rename_i h1 h2; exact absurd h2 h1
        · rfl

/-- Witness for C3: a concrete bucket of capacity 10, rate 1/6, run at
times 10 and 20, keeps its invariant for every prefix. -/
theorem C3_bucket_invariant_witness :
    bucketInv (runCalls ⟨5, 10, 1/6, 0⟩ ([10, 20].take 2)) :=
  (C3_bucket_invariant ⟨5, 10, 1/6, 0⟩ [10, 20] (by norm_num) (by norm_num)
    ⟨by norm_num, by norm_num⟩
    (List.Chain.cons (by norm_num) (List.Chain.cons (by norm_num) List.Chain.nil))).1 2

/-- An allowed `tryConsume` leaves exactly one token less than the
refilled count. -/
theorem tryConsume_true_tokens (tb : TokenBucket) (now : ℚ)
    (h : (tryConsume tb now).1 = true) :
    (tryConsume tb now).2.tokens = (refill tb now).tokens - 1 := by
  unfold tryConsume at h ⊢
  dsimp only at h ⊢
  split at h
  · rename_i h1
    rw [if_pos h1]
  · simp at h

/-- C4: `Allow` grants iff the IP bucket grants and the key is empty or
the key bucket grants; an IP denial leaves the key map untouched (no
lazy creation); and a granted request with a non-empty key stores back
an IP bucket and a key bucket each holding exactly one token less than
its refilled count. -/
theorem C4_Allow (rl : RateLimiter) (ip key : String) (ipL keyL : ℕ) (now : ℚ) :
    ((Allow rl ip key ipL keyL now).1 =
      ((allowIP rl.ipLimits ip ipL now).1 &&
        ((key == "") || (allowKey rl.keyLimits key keyL now).1))) ∧
    ((allowIP rl.ipLimits ip ipL now).1 = false →
      (Allow rl ip key ipL keyL now).2.keyLimits = rl.keyLimits) ∧
    ((Allow rl ip key ipL keyL now).1 = true → key ≠ "" →
      ∃ bIP bKey,
        (Allow rl ip key ipL keyL now).2.ipLimits ip = some bIP ∧
        (Allow rl ip key ipL keyL now).2.keyLimits key = some bKey ∧
        bIP.tokens = (refill (lookupOrNew rl.ipLimits ip ipL now) now).tokens - 1 ∧
        bKey.tokens = (refill (lookupOrNew rl.keyLimits key keyL now) now).tokens - 1) := by
  refine ⟨?_, ?_, ?_⟩
  · unfold Allow
    dsimp only
    cases hIP : (allowIP rl.ipLimits ip ipL now).1 with
    | false => simp [hIP]
    | true =>
      by_cases hk : key = ""
      · simp [hIP, hk]
      · simp [hIP, hk]
  · intro hIP
    unfold Allow
    dsimp only
    rw [hIP]
    rfl
  · intro hAllowed hk
    have hIP : (allowIP rl.ipLimits ip ipL now).1 = true := by
      by_contra hIP
      rw [Bool.not_eq_true] at hIP
      unfold Allow at hAllowed
      dsimp only at hAllowed
      rw [hIP] at hAllowed
      simp at hAllowed
    have hKey : (allowKey rl.keyLimits key keyL now).1 = true := by
      unfold Allow at hAllowed
      dsimp only at hAllowed
      rw [hIP] at hAllowed
      rw [if_neg (by decide)] at hAllowed
      rw [if_pos hk] at hAllowed
      exact hAllowed
    refine ⟨(tryConsume (lookupOrNew rl.ipLimits ip ipL now) now).2,
            (tryConsume (lookupOrNew rl.keyLimits key keyL now) now).2, ?_, ?_, ?_, ?_⟩
    · unfold Allow
      dsimp only
      rw [hIP]
      simp only [Bool.not_true, Bool.false_eq_true, if_false, if_pos hk]
      show (allowIP rl.ipLimits ip ipL now).2 ip = _
      unfold allowIP BucketMap.insert
      dsimp only
      rw [if_pos rfl]
    · unfold Allow
      dsimp only
      rw [hIP]
      simp only [Bool.not_true, Bool.false_eq_true, if_false, if_pos hk]
      show (allowKey rl.keyLimits key keyL now).2 key = _
      unfold allowKey BucketMap.insert
      dsimp only
      rw [if_pos rfl]
    · exact tryConsume_true_tokens _ now (by
        have : (allowIP rl.ipLimits ip ipL now).1
            = (tryConsume (lookupOrNew rl.ipLimits ip ipL now) now).1 := rfl
        rw [← this]; exact hIP)
    · exact tryConsume_true_tokens _ now (by
        have : (allowKey rl.keyLimits key keyL now).1
            = (tryConsume (lookupOrNew rl.keyLimits key keyL now) now).1 := rfl
        rw [← this]; exact hKey)

/-- Witness for C4: a first-seen IP and the key `key-admin`, both lazily
created, are each granted and each charged one token. -/
theorem C4_Allow_witness :
    ((Allow ⟨fun _ => none, fun _ => none⟩ "9.9.9.9" "key-admin" 2 3 0).1 =
      ((allowIP (fun _ => none) "9.9.9.9" 2 0).1 &&
        ((("key-admin" : String) == "") || (allowKey (fun _ => none) "key-admin" 3 0).1))) ∧
    (∃ bIP bKey,
      (Allow ⟨fun _ => none, fun _ => none⟩ "9.9.9.9" "key-admin" 2 3 0).2.ipLimits "9.9.9.9"
        = some bIP ∧
      (Allow ⟨fun _ => none, fun _ => none⟩ "9.9.9.9" "key-admin" 2 3 0).2.keyLimits "key-admin"
        = some bKey ∧
      bIP.tokens = (refill (lookupOrNew (fun _ => none) "9.9.9.9" 2 0) 0).tokens - 1 ∧
      bKey.tokens = (refill (lookupOrNew (fun _ => none) "key-admin" 3 0) 0).tokens - 1) := by
  have h := C4_Allow ⟨fun _ => none, fun _ => none⟩ "9.9.9.9" "key-admin" 2 3 0
  refine ⟨h.1, h.2.2 ?_ (by decide)⟩
  rw [h.1]
  norm_num [allowIP, allowKey, lookupOrNew, newBucket, tryConsume, refill]

/-- If the scan loop returns an index, that index is the first live
position, in cursor order, among the positions it visited. -/
theorem scanLoop_eq_some (alive : List Bool) (start n : ℕ) :
    ∀ fuel i idx, scanLoop alive start n i fuel = some idx →
      ∃ k, k < fuel ∧ idx = (start + i + k) % n ∧
        alive.getD idx false = true ∧
        ∀ j, j < k → alive.getD ((start + i + j) % n) false = false := by
  intro fuel
  induction fuel with
  | zero => intro i idx h; simp [scanLoop] at h
  | succ fuel ih =>
    intro i idx h
    unfold scanLoop at h
    by_cases hb : alive.getD ((start + i) % n) false = true
    · rw [if_pos hb] at h
      have hidx : (start + i) % n = idx := by injection h
      refine ⟨0, Nat.succ_pos _, ?_, ?_, ?_⟩
      · rw [← hidx, Nat.add_zero]
      · rw [← hidx]; exact hb
      · intro j hj; exact absurd hj (Nat.not_lt_zero j)
    · rw [if_neg hb] at h
      rw [Bool.not_eq_true] at hb
      obtain ⟨k, hk, hidx, hal, hmin⟩ := ih (i + 1) idx h
      refine ⟨k + 1, by omega, ?_, hal, ?_⟩
      · rw [hidx]; congr 1; omega
      · intro j hj
        cases j with
        | zero => rw [Nat.add_zero]; exact hb
        | succ j' =>
          have hj' := hmin j' (by omega)
          rw [show start + i + (j' + 1) = start + (i + 1) + j' from by omega]
          exact hj'

/-- The scan loop returns none exactly when every position it would visit
is dead. -/
theorem scanLoop_eq_none (alive : List Bool) (start n : ℕ) :
    ∀ fuel i, scanLoop alive start n i fuel = none ↔
      ∀ k, k < fuel → alive.getD ((start + i + k) % n) false = false := by
  intro fuel
  induction fuel with
  | zero => intro i; simp [scanLoop]
  | succ fuel ih =>
    intro i
    unfold scanLoop
    by_cases hb : alive.getD ((start + i) % n) false = true
    · rw [if_pos hb]
      constructor
      · intro hcontra; exact absurd hcontra (by simp)
      · intro hall
        have h0 := hall 0 (Nat.succ_pos _)
        rw [Nat.add_zero] at h0
        rw [h0] at hb
        exact absurd hb (by simp)
    · rw [if_neg hb]
      rw [Bool.not_eq_true] at hb
      rw [ih (i + 1)]
      constructor
      · intro hall k hk
        cases k with
        | zero => rw [Nat.add_zero]; exact hb
        | succ k' =>
          have hk' := hall k' (by omega)
          rw [show start + (i + 1) + k' = start + i + (k' + 1) from by omega] at hk'
          exact hk'
      · intro hall k hk
        have hk1 := hall (k + 1) (by omega)
        rw [show start + i + (k + 1) = start + (i + 1) + k from by omega] at hk1
        exact hk1

/-- C1: with a non-empty backend list, when `Next` returns a backend it
is the first live one within at most N scanned positions from the
cursor, the liveness flags are untouched and the cursor moves to one
past its position modulo N; when some scanned position is live `Next`
does return a backend; and when every position is dead, every present
and subsequent call returns none with the state unchanged (so none is
returned until some liveness flag changes). -/
theorem C1_Next_round_robin (lb : LoadBalancer) (h : lb.alive.length ≠ 0) :
    (∀ idx lb', Next lb = (some idx, lb') →
      lb.alive.getD idx false = true ∧
      lb'.alive = lb.alive ∧
      lb'.current = (idx + 1) % lb.alive.length ∧
      ∃ i, i < lb.alive.length ∧ idx = (lb.current + i) % lb.alive.length ∧
        ∀ j, j < i → lb.alive.getD ((lb.current + j) % lb.alive.length) false = false) ∧
    ((∃ i, i < lb.alive.length ∧
        lb.alive.getD ((lb.current + i) % lb.alive.length) false = true) →
      (Next lb).1 ≠ none) ∧
    ((∀ i, i < lb.alive.length →
        lb.alive.getD ((lb.current + i) % lb.alive.length) false = false) →
      ∀ m, (Next (afterCalls lb m)).1 = none ∧ afterCalls lb m = lb) := by
  refine ⟨?_, ?_, ?_⟩
  · intro idx lb' hNext
    unfold Next at hNext
    rw [if_neg h] at hNext
    cases hscan : scanLoop lb.alive lb.current lb.alive.length 0 lb.alive.length with
    | none => rw [hscan] at hNext; exact absurd (congrArg Prod.fst hNext) (by simp)
    | some idx0 =>
      rw [hscan] at hNext
      have h1 : some idx0 = some idx := congrArg Prod.fst hNext
      have hidx : idx0 = idx := by injection h1
      subst hidx
      have h2 : lb' = { lb with current := (idx0 + 1) % lb.alive.length } :=
        (congrArg Prod.snd hNext).symm
      obtain ⟨k, hk, hkidx, hal, hmin⟩ :=
        scanLoop_eq_some lb.alive lb.current lb.alive.length lb.alive.length 0 idx0 hscan
      rw [Nat.add_zero] at hkidx
      refine ⟨hal, by rw [h2], by rw [h2], k, hk, hkidx, ?_⟩
      intro j hj
      have := hmin j hj
      rwa [Nat.add_zero] at this
  · rintro ⟨i, hi, hAlive⟩
    unfold Next
    rw [if_neg h]
    cases hscan : scanLoop lb.alive lb.current lb.alive.length 0 lb.alive.length with
    | some idx0 => simp
    | none =>
      exfalso
      have hall :=
        (scanLoop_eq_none lb.alive lb.current lb.alive.length lb.alive.length 0).mp hscan i hi
      rw [Nat.add_zero] at hall
      rw [hall] at hAlive
      exact absurd hAlive (by simp)
  · intro hall
    have hNone : Next lb = (none, lb) := by
      unfold Next
      rw [if_neg h]
      rw [(scanLoop_eq_none lb.alive lb.current lb.alive.length lb.alive.length 0).mpr ?_]
      · intro k hk
        have := hall k hk
        rwa [Nat.add_zero]
    have hstate : ∀ m, afterCalls lb m = lb := by
      intro m
      induction m with
      | zero => rfl
      | succ m ihm =>
        show afterCalls (Next lb).2 m = lb
        rw [show (Next lb).2 = lb from congrArg Prod.snd hNone]
        exact ihm
    intro m
    refine ⟨?_, hstate m⟩
    rw [hstate m]
    exact congrArg Prod.fst hNone

/-- Witness for C1: with backends `[dead, live]` and cursor 0, `Next`
returns index 1, which is live, reached after skipping the dead index 0. -/
theorem C1_Next_round_robin_witness :
    ([false, true] : List Bool).getD 1 false = true ∧
    (∃ i, i < ([false, true] : List Bool).length ∧
      1 = ((⟨[false, true], 0⟩ : LoadBalancer).current + i) %
            ([false, true] : List Bool).length ∧
      ∀ j, j < i →
        ([false, true] : List Bool).getD
          (((⟨[false, true], 0⟩ : LoadBalancer).current + j) %
            ([false, true] : List Bool).length) false = false) := by
  have h := (C1_Next_round_robin ⟨[false, true], 0⟩ (by decide)).1 1 ⟨[false, true], 0⟩ rfl
  exact ⟨h.1, h.2.2.2⟩

/-- Every position of an all-live flag list reads true. -/
theorem getD_replicate_true (K i : ℕ) (h : i < K) :
    (List.replicate K true).getD i false = true := by
  rw [List.getD_eq_getElem?_getD, List.getElem?_replicate, if_pos h]
  rfl

/-- On an all-live list, `Next` selects the cursor position (mod K) and
advances the cursor by one. -/
theorem Next_replicate (K c : ℕ) (hK : 0 < K) :
    Next ⟨List.replicate K true, c⟩ =
      (some (c % K), ⟨List.replicate K true, (c % K + 1) % K⟩) := by
  obtain ⟨K', rfl⟩ : ∃ K', K = K' + 1 := ⟨K - 1, by omega⟩
  unfold Next
  dsimp only
  rw [List.length_replicate]
  rw [if_neg (by omega)]
  have hscan : scanLoop (List.replicate (K' + 1) true) c (K' + 1) 0 (K' + 1)
      = some (c % (K' + 1)) := by
    unfold scanLoop
    simp only [Nat.add_zero]
    rw [getD_replicate_true _ _ (Nat.mod_lt c (show 0 < K' + 1 from by omega))]
    rw [if_pos rfl]
  rw [hscan]

/-- With all backends live, the selections of `M` consecutive calls are
exactly the cyclic sequence `(c+i) % K` in registration order. -/
theorem selList_replicate (K : ℕ) (hK : 0 < K) :
    ∀ (M c : ℕ), selList ⟨List.replicate K true, c⟩ M
      = (List.range M).map (fun i => some ((c + i) % K)) := by
  intro M
  induction M with
  | zero => intro c; rfl
  | succ M ih =>
    intro c
    show (Next _).1 :: selList (Next _).2 M = _
    rw [Next_replicate K c hK]
    dsimp only
    rw [ih ((c % K + 1) % K)]
    rw [List.range_succ_eq_map, List.map_cons, List.map_map]
    congr 1
    apply List.map_congr_left
    intro a _
    show some (((c % K + 1) % K + a) % K) = some ((c + (a + 1)) % K)
    congr 1
    rw [Nat.mod_add_mod, Nat.add_assoc, Nat.mod_add_mod]
    congr 1
    omega

/-- In one full period of `K` cyclic selections, a given position `t < K`
occurs exactly once. -/
theorem count_block (K c' t : ℕ) (hK : 0 < K) (ht : t < K) :
    ((List.range K).map (fun i => (c' + i) % K)).count t = 1 := by
  have hnodup : ((List.range K).map (fun i => (c' + i) % K)).Nodup := by
    apply List.Nodup.map_on ?_ (List.nodup_range K)
    intro x hx y hy hxy
    rw [List.mem_range] at hx hy
    have h2 : x ≡ y [MOD K] := Nat.ModEq.add_left_cancel' c' hxy
    have hmod : x % K = y % K := h2
    rwa [Nat.mod_eq_of_lt hx, Nat.mod_eq_of_lt hy] at hmod
  have hmem : t ∈ (List.range K).map (fun i => (c' + i) % K) := by
    have hsub : ((List.range K).map (fun i => (c' + i) % K)).toFinset ⊆ Finset.range K := by
      intro a ha
      rw [List.mem_toFinset, List.mem_map] at ha
      obtain ⟨i, _, rfl⟩ := ha
      rw [Finset.mem_range]
      exact Nat.mod_lt _ hK
    have hcard : ((List.range K).map (fun i => (c' + i) % K)).toFinset.card = K := by
      rw [List.toFinset_card_of_nodup hnodup, List.length_map, List.length_range]
    have heq : ((List.range K).map (fun i => (c' + i) % K)).toFinset = Finset.range K :=
      Finset.eq_of_subset_of_card_le hsub (by rw [Finset.card_range, hcard])
    rw [← List.mem_toFinset, heq, Finset.mem_range]
    exact ht
  exact List.count_eq_one_of_mem hnodup hmem

/-- Extending the cyclic selection sequence by one full period adds
exactly one occurrence of each position. -/
theorem count_step (K t c' M : ℕ) (hK : 0 < K) (ht : t < K) :
    ((List.range (M + K)).map (fun i => (c' + i) % K)).count t
      = ((List.range M).map (fun i => (c' + i) % K)).count t + 1 := by
  rw [List.range_add, List.map_append, List.count_append]
  congr 1
  rw [List.map_map]
  have hmap : ((List.range K).map ((fun i => (c' + i) % K) ∘ fun x => M + x))
      = (List.range K).map (fun i => (c' + M + i) % K) := by
    apply List.map_congr_left
    intro a _
    show (c' + (M + a)) % K = (c' + M + a) % K
    rw [Nat.add_assoc]
  rw [hmap, count_block K (c' + M) t hK ht]

/-- Within a partial period the cyclic sequence hits a position at most
once. -/
theorem count_partial (K t c' r : ℕ) (hK : 0 < K) (ht : t < K) (hr : r ≤ K) :
    ((List.range r).map (fun i => (c' + i) % K)).count t ≤ 1 := by
  have h1 : List.range r = (List.range K).take r := by
    rw [List.take_range, min_eq_left hr]
  rw [h1, List.map_take]
  refine le_trans (List.Sublist.count_le (List.take_sublist r _) t) ?_
  rw [count_block K c' t hK ht]

/-- Decomposing the count over `q` full periods plus a remainder. -/
theorem count_blocks (K t c' : ℕ) (hK : 0 < K) (ht : t < K) :
    ∀ q r, ((List.range (q * K + r)).map (fun i => (c' + i) % K)).count t
      = q + ((List.range r).map (fun i => (c' + i) % K)).count t := by
  intro q
  induction q with
  | zero => intro r; simp
  | succ q ih =>
    intro r
    have hq : (q + 1) * K + r = (q * K + r) + K := by ring
    rw [hq, count_step K t c' (q * K + r) hK ht, ih r]
    omega

/-- The count of each position over `M` cyclic selections is `M / K` or
`M / K + 1`. -/
theorem count_sel_bounds (K t c' M : ℕ) (hK : 0 < K) (ht : t < K) :
    M / K ≤ ((List.range M).map (fun i => (c' + i) % K)).count t ∧
    ((List.range M).map (fun i => (c' + i) % K)).count t ≤ M / K + 1 := by
  have hM : M = M / K * K + M % K := by
    rw [Nat.mul_comm]
    exact (Nat.div_add_mod M K).symm
  have hr : M % K < K := Nat.mod_lt M hK
  have hsplit := count_blocks K t c' hK ht (M / K) (M % K)
  rw [← hM] at hsplit
  have hsmall := count_partial K t c' (M % K) hK ht (le_of_lt hr)
  omega

/-- Counting a value under the `some` embedding. -/
theorem count_some_map (l : List ℕ) (j : ℕ) :
    (l.map some).count (some j) = l.count j := by
  induction l with
  | nil => rfl
  | cons a l ih =>
    rw [List.map_cons, List.count_cons, List.count_cons, ih]
    have hbeq : (some a == some j) = (a == j) := rfl
    rw [hbeq]

/-- C7: with `K` backends all live, `M` consecutive `Next` calls produce
the deterministic cyclic sequence `(c+i) % K` in registration order;
each backend is selected `M/K` or `M/K + 1` times; and in every window
of `K` consecutive calls each backend is selected exactly once. -/
theorem C7_all_alive_fairness (K c M : ℕ) (hK : 0 < K) :
    (selList ⟨List.replicate K true, c⟩ M
      = (List.range M).map (fun i => some ((c + i) % K))) ∧
    (∀ j, j < K →
      M / K ≤ (selList ⟨List.replicate K true, c⟩ M).count (some j) ∧
      (selList ⟨List.replicate K true, c⟩ M).count (some j) ≤ M / K + 1) ∧
    (∀ m j, j < K →
      ((selList ⟨List.replicate K true, c⟩ (m + K)).drop m).count (some j) = 1) := by
  have hsel := selList_replicate K hK
  refine ⟨hsel M c, ?_, ?_⟩
  · intro j hj
    rw [hsel M c]
    have hmap : (List.range M).map (fun i => some ((c + i) % K))
        = ((List.range M).map (fun i => (c + i) % K)).map some := by
      rw [List.map_map]
      rfl
    rw [hmap, count_some_map]
    exact count_sel_bounds K j c M hK hj
  · intro m j hj
    rw [hsel (m + K) c]
    rw [List.range_add, List.map_append]
    rw [List.drop_left' (by rw [List.length_map, List.length_range])]
    rw [List.map_map]
    have hmap2 : ((List.range K).map ((fun i => some ((c + i) % K)) ∘ fun x => m + x))
        = ((List.range K).map (fun i => (c + m + i) % K)).map some := by
      rw [List.map_map]
      apply List.map_congr_left
      intro a _
      show some ((c + (m + a)) % K) = some ((c + m + a) % K)
      rw [Nat.add_assoc]
    rw [hmap2, count_some_map]
    exact count_block K (c + m) j hK hj

/-- Witness for C7: two live backends, cursor 0, five calls: the cyclic
sequence, the `5/2 ≤ count` bound for backend 1, and exactly one
selection of backend 0 in the window after three calls. -/
theorem C7_all_alive_fairness_witness :
    (selList ⟨List.replicate 2 true, 0⟩ 5
      = (List.range 5).map (fun i => some ((0 + i) % 2))) ∧
    5 / 2 ≤ (selList ⟨List.replicate 2 true, 0⟩ 5).count (some 1) ∧
    ((selList ⟨List.replicate 2 true, 0⟩ (3 + 2)).drop 3).count (some 0) = 1 := by
  have h := C7_all_alive_fairness 2 0 5 (by decide)
  have h3 := C7_all_alive_fairness 2 0 5 (by decide)
  exact ⟨h.1, (h.2.1 1 (by decide)).1, h3.2.2 3 0 (by decide)⟩

/-- C6: for every request entering the dispatcher pipeline (any path
other than `/health`), exactly one log entry is written, whichever stage
terminates the request; an unauthorized request calls neither the rate
limiter, the load balancer, nor the proxy; and a rate-limited request
calls neither the load balancer nor the proxy. -/
theorem C6_dispatcher_events (cfg : GatewayConfig) (st : GatewayState) (r : GoRequest)
    (proxyStatus : ℕ → ℕ) (now : ℚ) (hpath : r.path ≠ "/health") :
    ((handleRequest cfg st r proxyStatus now).2.2.countP Event.isLog = 1) ∧
    ((r.apiKey ≠ "" ∧ ¬ cfg.apiKeys r.apiKey) →
      Event.rateLimiterCalled ∉ (handleRequest cfg st r proxyStatus now).2.2 ∧
      Event.lbCalled ∉ (handleRequest cfg st r proxyStatus now).2.2 ∧
      ∀ b, Event.proxyCalled b ∉ (handleRequest cfg st r proxyStatus now).2.2) ∧
    (¬ (r.apiKey ≠ "" ∧ ¬ cfg.apiKeys r.apiKey) →
      (Allow st.rl (clientIPOf r.remoteAddr) r.apiKey
        cfg.rateLimitPerIP cfg.rateLimitPerKey now).1 = false →
      Event.lbCalled ∉ (handleRequest cfg st r proxyStatus now).2.2 ∧
      ∀ b, Event.proxyCalled b ∉ (handleRequest cfg st r proxyStatus now).2.2) := by
  unfold handleRequest
  rw [if_neg hpath]
  dsimp only
  by_cases hauth : r.apiKey ≠ "" ∧ ¬ cfg.apiKeys r.apiKey
  · rw [if_pos hauth]
    refine ⟨rfl, fun _ => ⟨by simp, by simp, fun b => by simp⟩, fun hna _ => absurd hauth hna⟩
  · rw [if_neg hauth]
    cases hallow : (Allow st.rl (clientIPOf r.remoteAddr) r.apiKey
        cfg.rateLimitPerIP cfg.rateLimitPerKey now).1 with
    | false =>
      simp only [Bool.not_false]
      rw [if_pos trivial]
      refine ⟨rfl, fun hy => absurd hy hauth, fun _ _ => ⟨by simp, fun b => by simp⟩⟩
    | true =>
      simp only [Bool.not_true]
      rw [if_neg (by decide)]
      rcases hnext : Next st.lb with ⟨o, lb2⟩
      cases o with
      | none =>
        exact ⟨rfl, fun hy => absurd hy hauth, fun _ hfalse => absurd hfalse (by decide)⟩
      | some idx =>
        exact ⟨rfl, fun hy => absurd hy hauth, fun _ hfalse => absurd hfalse (by decide)⟩

/-- Witness for C6: a plain request to `/api/data` from a fresh gateway
state produces exactly one log entry. -/
theorem C6_dispatcher_events_witness :
    (handleRequest ⟨fun k => k == "key-admin", 100, 1000⟩
      ⟨⟨fun _ => none, fun _ => none⟩, ⟨[true], 0⟩⟩
      ⟨"GET", "/api/data", "1.2.3.4:5555", ""⟩ (fun _ => 200) 0).2.2.countP Event.isLog
      = 1 :=
  (C6_dispatcher_events ⟨fun k => k == "key-admin", 100, 1000⟩
    ⟨⟨fun _ => none, fun _ => none⟩, ⟨[true], 0⟩⟩
    ⟨"GET", "/api/data", "1.2.3.4:5555", ""⟩ (fun _ => 200) 0 (by decide)).1

end ApiGateway
